import Mathlib

/-!
Shallow embedding of the crawl-and-extract pipeline of `src/apix/explore.py`
(class `AsyncExplorer`), together with theorems checking the specification's
claims about it.

Modelling conventions:
* A parsed HTML page is represented by the structure `Page`, holding exactly
  the projections the code reads through lxml: the text of every `h1` element,
  the `text_content()` of every table-body row (grouped per table, in document
  order), and the page's hyperlinks (element text plus href target).
* Python dictionaries are represented as association lists in insertion
  order; assignment `d[k] = v` updates the value in place when the key is
  present (keeping its position) and appends otherwise (`dins`).
* Python exceptions that the code does not catch are represented with
  `Except Unit`; `.error ()` marks an uncaught exception propagating to the
  caller.
* The filesystem is a structure `FS` of files (path, content written to it)
  and directories; the YAML serialization of `yaml.dump` is deterministic in
  its input, so a file's content is modelled by the aggregated value itself.
-/

/-!
String primitives.  Python's `str.replace(pat, '')`, `str.split(c)`,
`c in s` and slicing are re-implemented by structural recursion over the
character list so that every definition evaluates inside the kernel.
All `replace` calls in the source delete the pattern (replacement `''`)
and all `split` calls use a single-character separator.
-/

/-- Deletion of every non-overlapping occurrence of `pat`, scanning left to
right: the loop of Python's `s.replace(pat, '')`.  `skip` counts characters
of an already-matched occurrence still to be consumed. -/
def removeAllAux (pat : List Char) (skip : Nat) : List Char → List Char
  | [] => []
  | c :: rest =>
    match skip with
    | n + 1 => removeAllAux pat n rest
    | 0 =>
      if pat ≠ [] ∧ pat.isPrefixOf (c :: rest) then
        removeAllAux pat (pat.length - 1) rest
      else c :: removeAllAux pat 0 rest

/-- Python's `s.replace(pat, '')`. -/
def strRemove (s pat : String) : String := (removeAllAux pat.data 0 s.data).asString

/-- Python's `s.split(sep)` for a one-character separator: splitting an empty
string yields `[""]`, never the empty list. -/
def splitChar (sep : Char) : List Char → List (List Char)
  | [] => [[]]
  | c :: rest =>
    if c = sep then [] :: splitChar sep rest
    else
      match splitChar sep rest with
      | [] => [[c]]
      | h :: t => (c :: h) :: t

/-- Python's `s.split(sep)` on strings. -/
def strSplit (s : String) (sep : Char) : List String :=
  (splitChar sep s.data).map List.asString

/-- Python's `c in s` for a single character `c`. -/
def strHasChar (s : String) (c : Char) : Bool := s.data.contains c

/-- Python's slice `s[n:]`. -/
def strDropChars (s : String) (n : Nat) : String := (s.data.drop n).asString

/-- Python's `' '.join(l)`. -/
def joinSpace : List String → String
  | [] => ""
  | [x] => x
  | x :: rest => x ++ " " ++ joinSpace rest

/-- Occurrence of `needle` as a contiguous run inside `hay`. -/
def occursIn (needle : List Char) : List Char → Bool
  | [] => needle.isEmpty
  | c :: rest => needle.isPrefixOf (c :: rest) || occursIn needle rest

/-- Python's substring test `needle in hay`. -/
def strContains (hay needle : String) : Bool := occursIn needle.data hay.data

instance {ε α : Type} [DecidableEq ε] [DecidableEq α] : DecidableEq (Except ε α) := fun a b =>
  match a, b with
  | .error e, .error f =>
    if h : e = f then .isTrue (congrArg Except.error h)
    else .isFalse (fun hh => h (Except.error.inj hh))
  | .error _, .ok _ => .isFalse (fun hh => Except.noConfusion hh)
  | .ok _, .error _ => .isFalse (fun hh => Except.noConfusion hh)
  | .ok x, .ok y =>
    if h : x = y then .isTrue (congrArg Except.ok h)
    else .isFalse (fun hh => h (Except.ok.inj hh))

/-- A hyperlink as produced by iterating the links of a parsed page:
`label` models `link[0].text` (lxml gives `None` when the element has no
leading text; both `None` and `""` are falsy, so `None` is modelled as `""`)
and `target` models `link[2]`, the href target. -/
structure RawLink where
  label : String
  target : String
  deriving DecidableEq

/-- A parsed HTML page, holding the projections `explore.py` reads:
`h1texts` is the text of each `//h1` element in document order, `tables`
holds for each table body the `text_content()` of each of its rows, and
`rawLinks` are the page's hyperlinks in document order. -/
structure Page where
  h1texts : List String
  tables : List (List String)
  rawLinks : List RawLink
  deriving DecidableEq

/-- The record `scrape_content` builds for one page. -/
structure ScrapedRecord where
  paths : List String
  params : List String
  deriving DecidableEq

/-- One table row's contribution to `params`: remove every space character,
split on newlines, drop empty fragments, keep the first two, join by a
single space.  Mirrors
`" ".join([x for x in param.text_content().replace(" ","").split('\n') if x][:2])`. -/
def rowParam (r : String) : String :=
  joinSpace (((strSplit (strRemove r " ") '\n').filter (fun x => x ≠ "")).take 2)

/-- All table-body rows of the page in document order: the XPath
`//table/tbody/tr` selects the rows of every table, not only the first. -/
def allRows (tables : List (List String)) : List String :=
  tables.foldr (fun t acc => t ++ acc) []

/-- Embedding of `AsyncExplorer.scrape_content`. -/
def scrape_content (p : Page) : ScrapedRecord :=
  { paths := p.h1texts.map (fun t => strRemove t "\n      ")
  , params := (allRows p.tables).map rowParam }

/-- The value stored for one action inside an entity's `methods` list:
the Python dict `{action: {'paths': paths, 'parameters': params}}`. -/
structure MethodEntry where
  action : String
  paths : List String
  parameters : List String
  deriving DecidableEq

/-- Outcome of `AsyncExplorer._data_to_yaml` on one record: `fatal` models an
uncaught exception (the unguarded `paths[0]` raising `IndexError`), `skip`
models the `(False, False)` return, and `ok` carries the entity name and the
method entry. -/
inductive YamlStep where
  | fatal
  | skip
  | ok (entity : String) (entry : MethodEntry)
  deriving DecidableEq

/-- The `'list' if action == 'index' else action` normalization. -/
def normAction (a : String) : String := if a = "index" then "list" else a

/-- Embedding of `AsyncExplorer._data_to_yaml` applied to one path key and
its record.  `index.split('/')` is never empty in Python, so the `[]` branch
of the match is unreachable; a single segment makes `split_url[-2]` raise
`IndexError`, which the code catches and turns into `(False, False)` (skip).
The later `paths[0]` access is outside the `try` block: with an empty `paths`
list it raises an uncaught `IndexError` (fatal). -/
def data_to_yaml (index : String) (r : ScrapedRecord) : YamlStep :=
  match (strSplit index '/').reverse with
  | [] => .skip
  | [_] => .skip
  | lastSeg :: penult :: _ =>
    match r.paths with
    | [] => .fatal
    | p0 :: _ =>
      if strHasChar p0 '/' then
        .ok penult { action := normAction (strRemove lastSeg ".html")
                   , paths := r.paths, parameters := r.params }
      else .skip

/-- The path → record map `self._data`, in insertion order. -/
abbrev PathMap := List (String × ScrapedRecord)

/-- The aggregated document `yaml_data`: entity name → methods list, in
insertion order. -/
abbrev YamlData := List (String × List MethodEntry)

/-- Python `yaml_data[ent] = ...` update: a fresh methods list when the key is absent,
an append to the existing methods list when present. -/
def appendMethod (acc : YamlData) (ent : String) (entry : MethodEntry) : YamlData :=
  if acc.any (fun p => p.1 = ent) then
    acc.map (fun p => if p.1 = ent then (p.1, p.2 ++ [entry]) else p)
  else acc ++ [(ent, [entry])]

/-- The aggregation loop of `AsyncExplorer.save_data` over the entries of
`self._data`, in insertion order.  `(False, False)` results are skipped via
the `if ent` truthiness test, which also drops an empty entity name. -/
def aggregateGo (acc : YamlData) : PathMap → Except Unit YamlData
  | [] => .ok acc
  | (index, r) :: rest =>
    match data_to_yaml index r with
    | .fatal => .error ()
    | .skip => aggregateGo acc rest
    | .ok ent entry =>
      if ent = "" then aggregateGo acc rest
      else aggregateGo (appendMethod acc ent entry) rest

/-- Aggregation of the whole path → record map, starting from the empty
`yaml_data = {}`. -/
def aggregate (data : PathMap) : Except Unit YamlData := aggregateGo [] data

/-- A filesystem: files (path, written content) and directories. -/
structure FS where
  files : List (String × YamlData)
  dirs : List String
  deriving DecidableEq

/-- The deterministic save path `'APIs/{}/{}.yaml'.format(self.name, self.version)`. -/
def savePath (name version : String) : String :=
  "APIs/" ++ name ++ "/" ++ version ++ ".yaml"

/-- Python `mkdir(exist_ok=True)` for one directory. -/
def addDir (dirs : List String) (d : String) : List String :=
  if d ∈ dirs then dirs else dirs ++ [d]

/-- Embedding of `AsyncExplorer.save_data`: aggregate `self._data`; when the
result is empty, warn and return without touching the filesystem; otherwise
unlink any existing file at the save path, create the parent directories and
write the dump of the aggregated document.  An uncaught exception during
aggregation propagates before any filesystem operation. -/
def save_data (name version : String) (data : PathMap) (fs : FS) : Except Unit FS :=
  match aggregate data with
  | .error e => .error e
  | .ok yamlData =>
    if yamlData = [] then .ok fs
    else
      .ok { files := (fs.files.filter (fun p => p.1 ≠ savePath name version))
                      ++ [(savePath name version, yamlData)]
          , dirs := addDir (addDir fs.dirs "APIs") ("APIs/" ++ name) }

/-- A discovered link `(link[0].text, url)`. -/
abbrev Link := String × String

/-- The loop body of `AsyncExplorer.pull_links`, carrying the `last` variable
(the previously kept normalized path, `None` initially). -/
def pullLinksGo (basePath : String) (lastKept : Option String) : List RawLink → List Link
  | [] => []
  | l :: rest =>
    let url := strRemove l.target "../"
    if strHasChar (strDropChars url basePath.length) '/' ∧ l.label ≠ "" ∧ some url ≠ lastKept then
      (l.label, url) :: pullLinksGo basePath (some url) rest
    else pullLinksGo basePath lastKept rest

/-- Embedding of `AsyncExplorer.pull_links`. -/
def pull_links (basePath : String) (p : Page) : List Link :=
  pullLinksGo basePath none p.rawLinks

/-- Outcome of one `_async_get`: either the fetched content or a
`ServerDisconnectedError` reported by the transport. -/
inductive FetchR where
  | ok (c : Page)
  | disconnect
  deriving DecidableEq

/-- One `(link, content)` pair placed on the work queue. -/
abbrev QItem := Link × Page

/-- Embedding of `AsyncExplorer._async_loop`: fetch each link in order
(`async for` over `iter_list` awaits each fetch to completion before issuing
the next) and append the `(link, content)` pair to the queue.  The fetch
oracle is indexed by the position in the batch so that a disconnect at any
point of an attempt is expressible; a disconnect aborts the loop, leaving the
queue with whatever was already enqueued, and reports failure. -/
def async_loop (fetch : Nat → Link → FetchR) (i : Nat) :
    List Link → List QItem → List QItem × Bool
  | [], queue => (queue, true)
  | l :: rest, queue =>
    match fetch i l with
    | .ok c => async_loop fetch (i + 1) rest (queue ++ [(l, c)])
    | .disconnect => (queue, false)

/-- Result of `_visit_links`: the final queue and the list of retry delays
slept (`time.sleep(10)` before the one retry). -/
structure VisitOut where
  queue : List QItem
  delays : List Nat
  deriving DecidableEq

/-- Embedding of `AsyncExplorer._visit_links`: run the batch; on a
`ServerDisconnectedError` sleep 10 and rerun the whole batch once over the
same (uncleared!) queue; a disconnect on the retry propagates. -/
def visit_links (f1 f2 : Nat → Link → FetchR) (links : List Link)
    (queue : List QItem) : Except Unit VisitOut :=
  match async_loop f1 0 links queue with
  | (q, true) => .ok { queue := q, delays := [] }
  | (q, false) =>
    match async_loop f2 0 links q with
    | (q2, true) => .ok { queue := q2, delays := [10] }
    | (_, false) => .error ()

/-- Python dict assignment `d[k] = v` on an insertion-ordered association
list: update in place when the key is present, append otherwise. -/
def dins {V : Type} (d : List (String × V)) (k : String) (v : V) :
    List (String × V) :=
  if d.any (fun p => p.1 = k) then d.map (fun p => if p.1 = k then (k, v) else p)
  else d ++ [(k, v)]

/-- Dict lookup (first matching key). -/
def dget {V : Type} (k : String) (d : List (String × V)) : Option V :=
  (d.find? (fun p => p.1 = k)).map Prod.snd

/-- The key sequence of a dict, in order. -/
def dkeys {V : Type} (d : List (String × V)) : List String := d.map Prod.fst

/-- Embedding of `AsyncExplorer._link_params`: drain the queue in arrival
order, storing `self._data[link[1]] = self.scrape_content(content)`. -/
def link_params (queue : List QItem) (data : PathMap) : PathMap :=
  queue.foldl (fun d it => dins d it.1.2 (scrape_content it.2)) data

/-- The explorer's configuration attributes. -/
structure Config where
  name : String
  version : String
  host_url : String
  base_path : String
  deriving DecidableEq

/-- The seed response of `requests.get(host_url + base_path)`: its truthiness
(`if not result`) and its parsed content. -/
structure SeedResult where
  truthy : Bool
  content : Page
  deriving DecidableEq

/-- Embedding of `AsyncExplorer.explore`: abort (with a warning, returning
`self._data` still empty) when the base path lacks the literal `apidoc/` or
the seed response is falsy; otherwise strip `.html` from the base path, pull
the links, visit them (two fetch-attempt oracles) and drain the queue into
the path → record map. -/
def explore (cfg : Config) (seed : SeedResult) (f1 f2 : Nat → Link → FetchR) :
    Except Unit PathMap :=
  if strContains cfg.base_path "apidoc/" = false then .ok []
  else if seed.truthy = false then .ok []
  else
    match visit_links f1 f2 (pull_links (strRemove cfg.base_path ".html") seed.content) [] with
    | .error e => .error e
    | .ok vo => .ok (link_params vo.queue [])

/-- The URLs one `_async_loop` run requests: every link up to and including
the one whose GET reports the disconnect. -/
def asyncLoopUrls (host : String) (fetch : Nat → Link → FetchR) (i : Nat) :
    List Link → List String
  | [] => []
  | l :: rest =>
    match fetch i l with
    | .ok _ => (host ++ l.2) :: asyncLoopUrls host fetch (i + 1) rest
    | .disconnect => [host ++ l.2]

/-- The URLs `_visit_links` requests over its one or two attempts. -/
def visitUrls (host : String) (f1 f2 : Nat → Link → FetchR) (links : List Link) :
    List String :=
  match async_loop f1 0 links [] with
  | (_, true) => asyncLoopUrls host f1 0 links
  | (_, false) => asyncLoopUrls host f1 0 links ++ asyncLoopUrls host f2 0 links

/-- Every network request `explore` issues, in order: nothing at all when the
base path lacks `apidoc/`; otherwise the seed GET, followed by the per-link
GETs when the seed response was truthy. -/
def exploreRequests (cfg : Config) (seed : SeedResult) (f1 f2 : Nat → Link → FetchR) :
    List String :=
  if strContains cfg.base_path "apidoc/" = false then []
  else
    (cfg.host_url ++ cfg.base_path) ::
      (if seed.truthy = false then []
       else visitUrls cfg.host_url f1 f2
              (pull_links (strRemove cfg.base_path ".html") seed.content))

/-- The crawl entry point as driven by `__main__.Main.explore`: run
`explore()` then `save_data()`.  An exception from either propagates and the
filesystem keeps its prior state (the crash happens before any file
operation). -/
def crawlFS (cfg : Config) (seed : SeedResult) (f1 f2 : Nat → Link → FetchR)
    (fs : FS) : Except Unit PathMap × FS :=
  match explore cfg seed f1 f2 with
  | .error e => (.error e, fs)
  | .ok data =>
    match save_data cfg.name cfg.version data fs with
    | .error e => (.error e, fs)
    | .ok fs2 => (.ok data, fs2)

/-!
Dictionary lemmas.  `dins` is Python's `d[k] = v` on an insertion-ordered
association list; the facts below culminate in `dfold_take_append`: replaying
a prefix of a pair sequence before the full sequence leaves the resulting
dictionary unchanged.  This is what makes the retry of `_visit_links` (which
reruns the whole batch over the never-cleared queue) produce the same
`self._data` as a clean run.
-/

/-- Folding a pair sequence into a dictionary with `d[k] = v` semantics. -/
def dfold {V : Type} (X : List (String × V)) (d : List (String × V)) :
    List (String × V) :=
  X.foldl (fun acc p => dins acc p.1 p.2) d

theorem dget_cons {V : Type} (k : String) (p : String × V) (d : List (String × V)) :
    dget k (p :: d) = if p.1 = k then some p.2 else dget k d := by
  by_cases h : p.1 = k <;> simp [dget, List.find?, h]

theorem dget_append {V : Type} (k : String) (a b : List (String × V)) :
    dget k (a ++ b) = (dget k a).or (dget k b) := by
  unfold dget
  rw [List.find?_append]
  cases List.find? (fun p => p.1 = k) a <;> simp

theorem dget_eq_none_of_not_mem {V : Type} {k : String} {d : List (String × V)}
    (h : k ∉ dkeys d) : dget k d = none := by
  induction d with
  | nil => rfl
  | cons p rest ih =>
    rw [dget_cons]
    simp only [dkeys, List.map_cons, List.mem_cons, not_or] at h
    rw [if_neg (fun he => h.1 he.symm)]
    exact ih h.2

theorem any_key_eq_false_of_not_mem {V : Type} {k : String} {d : List (String × V)}
    (h : k ∉ dkeys d) : ¬(d.any (fun p => p.1 = k) = true) := by
  intro hc
  rcases List.any_eq_true.mp hc with ⟨p, hp, he⟩
  exact h (List.mem_map.mpr ⟨p, hp, of_decide_eq_true he⟩)

theorem any_key_eq_true_of_mem {V : Type} {k : String} {d : List (String × V)}
    (h : k ∈ dkeys d) : d.any (fun p => p.1 = k) = true := by
  rcases List.mem_map.mp h with ⟨p, hp, he⟩
  exact List.any_eq_true.mpr ⟨p, hp, decide_eq_true he⟩

theorem dget_map_update_self {V : Type} {d : List (String × V)} {k : String} (v : V)
    (h : k ∈ dkeys d) :
    dget k (d.map (fun p => if p.1 = k then (k, v) else p)) = some v := by
  induction d with
  | nil => simp [dkeys] at h
  | cons p rest ih =>
    rcases p with ⟨pk, pv⟩
    by_cases hp : pk = k
    · subst hp
      simp [dget_cons]
    · simp only [List.map_cons, if_neg hp, dget_cons, if_neg hp]
      simp only [dkeys, List.map_cons, List.mem_cons] at h
      exact ih (h.resolve_left (fun he => hp he.symm))

theorem dget_map_update_ne {V : Type} (d : List (String × V)) {k k' : String} (v : V)
    (h : k' ≠ k) :
    dget k' (d.map (fun p => if p.1 = k then (k, v) else p)) = dget k' d := by
  induction d with
  | nil => rfl
  | cons p rest ih =>
    rcases p with ⟨pk, pv⟩
    by_cases hp : pk = k
    · simp only [List.map_cons, if_pos hp, dget_cons]
      rw [if_neg (fun he : k = k' => h he.symm),
        if_neg (fun he : pk = k' => h (hp ▸ he).symm), ih]
    · simp only [List.map_cons, if_neg hp, dget_cons]
      by_cases hq : pk = k'
      · rw [if_pos hq, if_pos hq]
      · rw [if_neg hq, if_neg hq, ih]

theorem dget_dins_self {V : Type} (d : List (String × V)) (k : String) (v : V) :
    dget k (dins d k v) = some v := by
  unfold dins
  by_cases hm : k ∈ dkeys d
  · rw [if_pos (any_key_eq_true_of_mem hm)]
    exact dget_map_update_self v hm
  · rw [if_neg (any_key_eq_false_of_not_mem hm)]
    rw [dget_append, dget_eq_none_of_not_mem hm, Option.none_or, dget_cons, if_pos rfl]

theorem dget_dins_ne {V : Type} (d : List (String × V)) {k k' : String} (v : V)
    (h : k' ≠ k) : dget k' (dins d k v) = dget k' d := by
  unfold dins
  by_cases ha : d.any (fun p => p.1 = k) = true
  · rw [if_pos ha]
    exact dget_map_update_ne d v h
  · rw [if_neg ha, dget_append]
    have hone : dget k' [(k, v)] = none := by
      rw [dget_cons, if_neg (fun he : k = k' => h he.symm)]
      rfl
    rw [hone, Option.or_none]

theorem dkeys_dins_of_mem {V : Type} {d : List (String × V)} {k : String} (v : V)
    (h : k ∈ dkeys d) : dkeys (dins d k v) = dkeys d := by
  unfold dins
  rw [if_pos (any_key_eq_true_of_mem h)]
  unfold dkeys
  rw [List.map_map]
  apply List.map_congr_left
  intro p _
  by_cases hp : p.1 = k <;> simp [hp]

theorem dkeys_dins_of_not_mem {V : Type} {d : List (String × V)} {k : String} (v : V)
    (h : k ∉ dkeys d) : dkeys (dins d k v) = dkeys d ++ [k] := by
  unfold dins
  rw [if_neg (any_key_eq_false_of_not_mem h)]
  simp [dkeys]

theorem mem_dkeys_dins {V : Type} {d : List (String × V)} {a k : String} (v : V)
    (h : a ∈ dkeys d) : a ∈ dkeys (dins d k v) := by
  by_cases hm : k ∈ dkeys d
  · rwa [dkeys_dins_of_mem v hm]
  · rw [dkeys_dins_of_not_mem v hm]
    exact List.mem_append_left _ h

theorem self_mem_dkeys_dins {V : Type} (d : List (String × V)) (k : String) (v : V) :
    k ∈ dkeys (dins d k v) := by
  by_cases hm : k ∈ dkeys d
  · rwa [dkeys_dins_of_mem v hm]
  · rw [dkeys_dins_of_not_mem v hm]
    exact List.mem_append_right _ (List.mem_singleton.mpr rfl)

theorem nodup_dkeys_dins {V : Type} {d : List (String × V)} (k : String) (v : V)
    (h : (dkeys d).Nodup) : (dkeys (dins d k v)).Nodup := by
  by_cases hm : k ∈ dkeys d
  · rwa [dkeys_dins_of_mem v hm]
  · rw [dkeys_dins_of_not_mem v hm]
    simpa [List.nodup_append] using ⟨h, hm⟩

/-- The value a fold leaves at key `k`: the last value for `k` in the pair
sequence when present, the prior dictionary's value otherwise. -/
theorem dget_dfold {V : Type} (X : List (String × V)) (d : List (String × V))
    (k : String) : dget k (dfold X d) = (dget k X.reverse).or (dget k d) := by
  induction X generalizing d with
  | nil => simp [dfold, dget]
  | cons p rest ih =>
    rcases p with ⟨pk, pv⟩
    show dget k (dfold rest (dins d pk pv)) = _
    rw [ih, List.reverse_cons, dget_append]
    cases hr : dget k rest.reverse with
    | some v => rfl
    | none =>
      rw [Option.none_or]
      by_cases hp : pk = k
      · subst hp
        rw [dget_dins_self, dget_cons, if_pos rfl, Option.none_or]
        rfl
      · rw [dget_dins_ne d pv (fun he => hp he.symm), dget_cons, if_neg hp]
        rfl

theorem nodup_dkeys_dfold {V : Type} (X : List (String × V)) {d : List (String × V)}
    (h : (dkeys d).Nodup) : (dkeys (dfold X d)).Nodup := by
  induction X generalizing d with
  | nil => exact h
  | cons p rest ih => exact ih (nodup_dkeys_dins p.1 p.2 h)

theorem mem_dkeys_dfold_of_mem {V : Type} (X : List (String × V))
    {d : List (String × V)} {a : String} (h : a ∈ dkeys d) : a ∈ dkeys (dfold X d) := by
  induction X generalizing d with
  | nil => exact h
  | cons p rest ih => exact ih (mem_dkeys_dins p.2 h)

theorem mem_dkeys_dfold_of_key {V : Type} {X : List (String × V)}
    (d : List (String × V)) {a : String} (h : a ∈ X.map Prod.fst) :
    a ∈ dkeys (dfold X d) := by
  induction X generalizing d with
  | nil => simp at h
  | cons p rest ih =>
    rw [List.map_cons, List.mem_cons] at h
    rcases h with he | hm
    · exact mem_dkeys_dfold_of_mem rest (by rw [he]; exact self_mem_dkeys_dins d p.1 p.2)
    · exact ih (dins d p.1 p.2) hm

theorem dkeys_dfold_of_subsumed {V : Type} {X : List (String × V)}
    {d : List (String × V)} (h : ∀ a ∈ X.map Prod.fst, a ∈ dkeys d) :
    dkeys (dfold X d) = dkeys d := by
  induction X generalizing d with
  | nil => rfl
  | cons p rest ih =>
    show dkeys (dfold rest (dins d p.1 p.2)) = dkeys d
    have hp : p.1 ∈ dkeys d := h p.1 (by simp)
    rw [ih (fun a ha => by rw [dkeys_dins_of_mem p.2 hp]; exact h a (by simp [ha]))]
    exact dkeys_dins_of_mem p.2 hp

/-- Extensionality for dictionaries with duplicate-free keys: equal key
sequences and equal lookups force equality. -/
theorem dict_ext {V : Type} : ∀ (a b : List (String × V)),
    dkeys a = dkeys b → (dkeys a).Nodup → (∀ k, dget k a = dget k b) → a = b := by
  intro a
  induction a with
  | nil =>
    intro b hk _ _
    cases b with
    | nil => rfl
    | cons p rest => exact absurd hk (by simp [dkeys])
  | cons p rest ih =>
    intro b hk hnd hget
    cases b with
    | nil => exact absurd hk (by simp [dkeys])
    | cons q restb =>
      rcases p with ⟨pk, pv⟩
      rcases q with ⟨qk, qv⟩
      simp only [dkeys, List.map_cons, List.cons.injEq] at hk
      simp only [dkeys, List.map_cons] at hnd
      have hnd' := List.nodup_cons.mp hnd
      have hv : pv = qv := by
        have hgp := hget pk
        rw [dget_cons, dget_cons, if_pos rfl, if_pos hk.1.symm] at hgp
        exact Option.some.inj hgp
      have htl : rest = restb := by
        apply ih restb
        · show List.map Prod.fst rest = List.map Prod.fst restb
          exact hk.2
        · exact hnd'.2
        · intro k
          by_cases hkp : k = pk
          · subst hkp
            have hnb : k ∉ List.map Prod.fst restb := by
              rw [← hk.2]
              exact hnd'.1
            rw [dget_eq_none_of_not_mem (show k ∉ dkeys rest from hnd'.1),
              dget_eq_none_of_not_mem (show k ∉ dkeys restb from hnb)]
          · have hgk := hget k
            rw [dget_cons, dget_cons, if_neg (fun he : pk = k => hkp he.symm),
              if_neg (fun he : qk = k => hkp (hk.1.trans he).symm)] at hgk
            exact hgk
      rw [hk.1, hv, htl]

/-- Replaying a pair sequence over a dictionary that already absorbed it is
the identity. -/
theorem dfold_refold {V : Type} (X : List (String × V)) (d : List (String × V))
    (hnd : (dkeys d).Nodup) : dfold X (dfold X d) = dfold X d := by
  apply dict_ext
  · exact dkeys_dfold_of_subsumed (fun a ha => mem_dkeys_dfold_of_key d ha)
  · exact nodup_dkeys_dfold X (nodup_dkeys_dfold X hnd)
  · intro k
    rw [dget_dfold, dget_dfold]
    cases dget k X.reverse <;> rfl

/-- Replaying any prefix of a pair sequence before the full sequence yields
the same dictionary as the full sequence alone. -/
theorem dfold_take_append {V : Type} (X : List (String × V)) (k : Nat)
    (d : List (String × V)) (hnd : (dkeys d).Nodup) :
    dfold (X.take k ++ X) d = dfold X d := by
  have hX : X.take k ++ X.drop k = X := List.take_append_drop k X
  calc dfold (X.take k ++ X) d
      = dfold (X.take k ++ (X.take k ++ X.drop k)) d := by rw [hX]
    _ = dfold (X.drop k) (dfold (X.take k) (dfold (X.take k) d)) := by
        unfold dfold
        rw [List.foldl_append, List.foldl_append]
    _ = dfold (X.drop k) (dfold (X.take k) d) := by rw [dfold_refold (X.take k) d hnd]
    _ = dfold (X.take k ++ X.drop k) d := by
        unfold dfold
        rw [List.foldl_append]
    _ = dfold X d := by rw [hX]

/-!
Fetch-stage lemmas: the batch loop under a clean oracle and under an oracle
that reports a lost connection at a given position of the batch.
-/

/-- A fetch attempt with no failure and deterministic per-link content. -/
def fetchOk (f : Link → Page) : Nat → Link → FetchR := fun _ l => .ok (f l)

/-- A fetch attempt whose fetch at batch position `k` reports a lost
connection; positions before `k` succeed with deterministic content. -/
def fetchDiscAt (f : Link → Page) (k : Nat) : Nat → Link → FetchR :=
  fun i l => if i < k then .ok (f l) else .disconnect

theorem async_loop_fetchOk (f : Link → Page) (i : Nat) (links : List Link)
    (queue : List QItem) :
    async_loop (fetchOk f) i links queue
      = (queue ++ links.map (fun l => (l, f l)), true) := by
  induction links generalizing i queue with
  | nil => simp [async_loop]
  | cons l rest ih =>
    show async_loop (fetchOk f) (i + 1) rest (queue ++ [(l, f l)]) = _
    rw [ih]
    simp

theorem async_loop_fetchDiscAt (f : Link → Page) (k : Nat) (links : List Link) :
    ∀ (i : Nat) (queue : List QItem), i ≤ k → k < i + links.length →
    async_loop (fetchDiscAt f k) i links queue
      = (queue ++ (links.take (k - i)).map (fun l => (l, f l)), false) := by
  induction links with
  | nil =>
    intro i queue hik hlen
    simp at hlen
    omega
  | cons l rest ih =>
    intro i queue hik hlen
    by_cases hc : i < k
    · have hf : fetchDiscAt f k i l = .ok (f l) := by simp [fetchDiscAt, hc]
      have hstep : async_loop (fetchDiscAt f k) i (l :: rest) queue
          = async_loop (fetchDiscAt f k) (i + 1) rest (queue ++ [(l, f l)]) := by
        simp only [async_loop, hf]
      rw [hstep, ih (i + 1) (queue ++ [(l, f l)]) hc (by simp at hlen ⊢; omega)]
      have htake : (l :: rest).take (k - i) = l :: rest.take (k - (i + 1)) := by
        have hki : k - i = (k - (i + 1)) + 1 := by omega
        rw [hki, List.take_succ_cons]
      rw [htake]
      simp
    · have hieq : i = k := by omega
      have hf : fetchDiscAt f k i l = .disconnect := by simp [fetchDiscAt, hc]
      have hstep : async_loop (fetchDiscAt f k) i (l :: rest) queue = (queue, false) := by
        simp only [async_loop, hf]
      rw [hstep, hieq]
      simp

theorem visit_links_clean (f : Link → Page) (links : List Link) :
    visit_links (fetchOk f) (fetchOk f) links []
      = .ok { queue := links.map (fun l => (l, f l)), delays := [] } := by
  unfold visit_links
  rw [async_loop_fetchOk]
  simp

theorem visit_links_retry (f : Link → Page) (k : Nat) (links : List Link)
    (hk : k < links.length) :
    visit_links (fetchDiscAt f k) (fetchOk f) links []
      = .ok { queue := (links.map (fun l => (l, f l))).take k
                        ++ links.map (fun l => (l, f l))
            , delays := [10] } := by
  unfold visit_links
  rw [async_loop_fetchDiscAt f k links 0 [] (Nat.zero_le k) (by simpa using hk)]
  simp only [Nat.sub_zero, List.nil_append]
  rw [async_loop_fetchOk]
  simp [List.map_take]

theorem visit_links_disc_twice (f : Link → Page) (k k2 : Nat) (links : List Link)
    (hk : k < links.length) (hk2 : k2 < links.length) :
    visit_links (fetchDiscAt f k) (fetchDiscAt f k2) links [] = .error () := by
  unfold visit_links
  rw [async_loop_fetchDiscAt f k links 0 [] (Nat.zero_le k) (by simpa using hk)]
  simp only [Nat.sub_zero, List.nil_append]
  rw [async_loop_fetchDiscAt f k2 links 0 _ (Nat.zero_le k2) (by simpa using hk2)]

/-- The drain `_link_params` is the dictionary fold of the queue's pairs. -/
theorem link_params_eq_dfold (Q : List QItem) (d : PathMap) :
    link_params Q d = dfold (Q.map (fun it => (it.1.2, scrape_content it.2))) d := by
  unfold link_params dfold
  rw [List.foldl_map]

/-- Draining a queue made of a replayed prefix followed by the full clean
batch yields the same path → record map as draining the clean batch alone. -/
theorem link_params_retry_eq (f : Link → Page) (k : Nat) (links : List Link) :
    link_params ((links.map (fun l => (l, f l))).take k ++ links.map (fun l => (l, f l))) []
      = link_params (links.map (fun l => (l, f l))) [] := by
  rw [link_params_eq_dfold, link_params_eq_dfold, List.map_append, List.map_take]
  exact dfold_take_append _ k [] (by simp [dkeys])

/-!
Aggregation lemmas for the methods-list accumulation of `save_data`.
-/

/-- The method entries the records of `data` contribute to entity `e`, in
map order. -/
def entriesFor (data : PathMap) (e : String) : List MethodEntry :=
  data.filterMap (fun pr =>
    match data_to_yaml pr.1 pr.2 with
    | .ok ent entry => if ent = e then some entry else none
    | _ => none)

/-- Appending entries `l` to an optional pre-existing methods list. -/
def combineOpt (o : Option (List MethodEntry)) (l : List MethodEntry) :
    Option (List MethodEntry) :=
  match o with
  | some m => some (m ++ l)
  | none => if l = [] then none else some l

theorem combineOpt_nil (o : Option (List MethodEntry)) : combineOpt o [] = o := by
  cases o <;> simp [combineOpt]

theorem combineOpt_snoc_cons (o : Option (List MethodEntry)) (x : MethodEntry)
    (l : List MethodEntry) : combineOpt (combineOpt o [x]) l = combineOpt o (x :: l) := by
  cases o <;> simp [combineOpt]

theorem dget_isSome_of_mem {V : Type} {k : String} {d : List (String × V)}
    (h : k ∈ dkeys d) : ∃ v, dget k d = some v := by
  induction d with
  | nil => simp [dkeys] at h
  | cons p rest ih =>
    rcases p with ⟨pk, pv⟩
    rw [dget_cons]
    by_cases hp : pk = k
    · exact ⟨pv, if_pos hp⟩
    · rw [if_neg hp]
      simp only [dkeys, List.map_cons, List.mem_cons] at h
      exact ih (h.resolve_left (fun he => hp he.symm))

theorem dget_methods_update_self {acc : YamlData} {ent : String} (entry : MethodEntry)
    (h : ent ∈ dkeys acc) :
    dget ent (acc.map (fun p => if p.1 = ent then (p.1, p.2 ++ [entry]) else p))
      = (dget ent acc).map (fun m => m ++ [entry]) := by
  induction acc with
  | nil => simp [dkeys] at h
  | cons p rest ih =>
    rcases p with ⟨pk, pv⟩
    by_cases hp : pk = ent
    · subst hp
      simp [dget_cons]
    · simp only [List.map_cons, if_neg hp, dget_cons, if_neg hp]
      simp only [dkeys, List.map_cons, List.mem_cons] at h
      exact ih (h.resolve_left (fun he => hp he.symm))

theorem dget_methods_update_ne (acc : YamlData) {e ent : String} (entry : MethodEntry)
    (h : e ≠ ent) :
    dget e (acc.map (fun p => if p.1 = ent then (p.1, p.2 ++ [entry]) else p))
      = dget e acc := by
  induction acc with
  | nil => rfl
  | cons p rest ih =>
    rcases p with ⟨pk, pv⟩
    by_cases hp : pk = ent
    · simp only [List.map_cons, if_pos hp, dget_cons]
      rw [if_neg (fun he : pk = e => h (he.symm.trans hp)), if_neg (fun he : pk = e => h (he.symm.trans hp)), ih]
    · simp only [List.map_cons, if_neg hp, dget_cons]
      by_cases hq : pk = e
      · rw [if_pos hq, if_pos hq]
      · rw [if_neg hq, if_neg hq, ih]

theorem dget_appendMethod_self (acc : YamlData) (ent : String) (entry : MethodEntry) :
    dget ent (appendMethod acc ent entry) = combineOpt (dget ent acc) [entry] := by
  unfold appendMethod
  by_cases hm : ent ∈ dkeys acc
  · rw [if_pos (any_key_eq_true_of_mem hm), dget_methods_update_self entry hm]
    rcases dget_isSome_of_mem hm with ⟨m, hv⟩
    rw [hv]
    rfl
  · rw [if_neg (any_key_eq_false_of_not_mem hm), dget_append,
      dget_eq_none_of_not_mem hm, Option.none_or, dget_cons, if_pos rfl]
    rfl

theorem dget_appendMethod_ne (acc : YamlData) {e ent : String} (entry : MethodEntry)
    (h : e ≠ ent) : dget e (appendMethod acc ent entry) = dget e acc := by
  unfold appendMethod
  by_cases ha : acc.any (fun p => p.1 = ent) = true
  · rw [if_pos ha]
    exact dget_methods_update_ne acc entry h
  · rw [if_neg ha, dget_append]
    have hone : dget e [(ent, [entry])] = none := by
      rw [dget_cons, if_neg (fun he : ent = e => h he.symm)]
      rfl
    rw [hone, Option.or_none]

theorem aggregateGo_cons_fatal (acc : YamlData) (index : String) (r : ScrapedRecord)
    (rest : PathMap) (h : data_to_yaml index r = .fatal) :
    aggregateGo acc ((index, r) :: rest) = .error () := by
  simp only [aggregateGo, h]

theorem aggregateGo_cons_skip (acc : YamlData) (index : String) (r : ScrapedRecord)
    (rest : PathMap) (h : data_to_yaml index r = .skip) :
    aggregateGo acc ((index, r) :: rest) = aggregateGo acc rest := by
  simp only [aggregateGo, h]

theorem aggregateGo_cons_ok_empty (acc : YamlData) (index : String) (r : ScrapedRecord)
    (rest : PathMap) (entry : MethodEntry) (h : data_to_yaml index r = .ok "" entry) :
    aggregateGo acc ((index, r) :: rest) = aggregateGo acc rest := by
  simp [aggregateGo, h]

theorem aggregateGo_cons_ok (acc : YamlData) (index : String) (r : ScrapedRecord)
    (rest : PathMap) (ent : String) (entry : MethodEntry)
    (h : data_to_yaml index r = .ok ent entry) (hne : ent ≠ "") :
    aggregateGo acc ((index, r) :: rest)
      = aggregateGo (appendMethod acc ent entry) rest := by
  simp only [aggregateGo, h, if_neg hne]

/-- What the aggregation loop leaves at a non-empty entity key: the entries
already accumulated, extended by every entry the remaining records
contribute to that entity, in map order. -/
theorem aggregateGo_dget : ∀ (data : PathMap) (acc yd : YamlData) (e : String),
    e ≠ "" → aggregateGo acc data = .ok yd →
    dget e yd = combineOpt (dget e acc) (entriesFor data e) := by
  intro data
  induction data with
  | nil =>
    intro acc yd e _ h
    have hacc : acc = yd := Except.ok.inj h
    rw [← hacc, entriesFor, List.filterMap_nil, combineOpt_nil]
  | cons pr rest ih =>
    intro acc yd e he h
    rcases pr with ⟨index, r⟩
    cases hstep : data_to_yaml index r with
    | fatal =>
      rw [aggregateGo_cons_fatal acc index r rest hstep] at h
      exact absurd h (by simp)
    | skip =>
      rw [aggregateGo_cons_skip acc index r rest hstep] at h
      rw [entriesFor, List.filterMap_cons]
      simp only [hstep]
      exact ih acc yd e he h
    | ok ent entry =>
      by_cases hent : ent = ""
      · subst hent
        rw [aggregateGo_cons_ok_empty acc index r rest entry hstep] at h
        rw [entriesFor, List.filterMap_cons]
        simp only [hstep, if_neg (fun hee : ("" : String) = e => he hee.symm)]
        exact ih acc yd e he h
      · rw [aggregateGo_cons_ok acc index r rest ent entry hstep hent] at h
        by_cases hee : ent = e
        · subst hee
          rw [entriesFor, List.filterMap_cons]
          simp only [hstep, if_pos rfl]
          have hrest := ih (appendMethod acc ent entry) yd ent he h
          rw [entriesFor] at hrest
          rw [hrest, dget_appendMethod_self, combineOpt_snoc_cons]
          simp
        · rw [entriesFor, List.filterMap_cons]
          simp only [hstep, if_neg hee]
          have hrest := ih (appendMethod acc ent entry) yd e he h
          rw [entriesFor] at hrest
          rw [hrest, dget_appendMethod_ne acc entry (fun hx => hee hx.symm)]

/-!
Persistence lemmas.
-/

theorem addDir_of_mem {dirs : List String} {d : String} (h : d ∈ dirs) :
    addDir dirs d = dirs := if_pos h

theorem self_mem_addDir (dirs : List String) (d : String) : d ∈ addDir dirs d := by
  unfold addDir
  by_cases h : d ∈ dirs
  · rwa [if_pos h]
  · rw [if_neg h]
    exact List.mem_append_right _ (List.mem_singleton.mpr rfl)

theorem mem_addDir_of_mem {dirs : List String} {x : String} (d : String)
    (h : x ∈ dirs) : x ∈ addDir dirs d := by
  unfold addDir
  by_cases hm : d ∈ dirs
  · rwa [if_pos hm]
  · rw [if_neg hm]
    exact List.mem_append_left _ h

theorem filter_ne_key_filter {V : Type} (A : List (String × V)) (p : String) :
    (A.filter (fun pr => pr.1 ≠ p)).filter (fun pr => pr.1 ≠ p)
      = A.filter (fun pr => pr.1 ≠ p) := by
  rw [List.filter_filter]
  apply List.filter_congr
  intro a _
  simp

theorem save_data_of_aggregate_ok (name version : String) (data : PathMap)
    (yd : YamlData) (fs : FS) (hagg : aggregate data = .ok yd) :
    save_data name version data fs
      = if yd = [] then .ok fs
        else .ok { files := (fs.files.filter (fun p => p.1 ≠ savePath name version))
                    ++ [(savePath name version, yd)]
                 , dirs := addDir (addDir fs.dirs "APIs") ("APIs/" ++ name) } := by
  unfold save_data
  rw [hagg]

theorem dget_filter_ne_key {V : Type} (A : List (String × V)) (p : String) :
    dget p (A.filter (fun pr => pr.1 ≠ p)) = none := by
  apply dget_eq_none_of_not_mem
  intro hm
  rcases List.mem_map.mp hm with ⟨pr, hpr, he⟩
  rcases List.mem_filter.mp hpr with ⟨_, hne⟩
  exact (of_decide_eq_true hne) he

/-!
Claim-side definitions: for refinement claims, a second definition follows
the specification's words and is compared with the embedding of the source.
-/

/-- Modelled from the claim (C3) on one row: remove all whitespace from the
row's text content (every whitespace character other than the newline that
is subsequently split on), split on internal newlines, discard empty
fragments, keep the first two surviving fragments, rejoin with one space. -/
def rowParamClaimC3 (r : String) : String :=
  joinSpace (((strSplit ((r.data.filter
      (fun c => !(c.isWhitespace && c != '\n'))).asString) '\n').filter
    (fun x => x ≠ "")).take 2)

/-- Modelled from the claim (C3): rows come from the first table body only,
in document order. -/
def paramsClaimC3 (p : Page) : List String :=
  match p.tables with
  | [] => []
  | t :: _ => t.map rowParamClaimC3

/-- Amended C3: rows come from every table body in document order, and only
space characters (not all whitespace) are removed before splitting. -/
def paramsAmendedC3 (p : Page) : List String :=
  (allRows p.tables).map (fun r =>
    joinSpace (((strSplit (strRemove r " ") '\n').filter (fun x => x ≠ "")).take 2))

/-- Modelled from the claim (C4): keep a hyperlink exactly when (a) the
portion of its `../`-stripped target after the base-path prefix contains a
path separator, (b) its visible label text is non-empty, and (c) its
normalized path differs from the immediately preceding kept path. -/
def keepLinkC4 (basePath : String) (prev : Option String) (l : RawLink) : Prop :=
  strHasChar (strDropChars (strRemove l.target "../") basePath.length) '/' = true
  ∧ l.label ≠ "" ∧ some (strRemove l.target "../") ≠ prev

instance (basePath : String) (prev : Option String) (l : RawLink) :
    Decidable (keepLinkC4 basePath prev l) := by
  unfold keepLinkC4
  infer_instance

/-- Modelled from the claim (C4): discovery with adjacent-duplicate
suppression against the previously kept normalized path. -/
def discoveryC4 (basePath : String) : Option String → List RawLink → List Link
  | _, [] => []
  | prev, l :: rest =>
    if keepLinkC4 basePath prev l then
      (l.label, strRemove l.target "../")
        :: discoveryC4 basePath (some (strRemove l.target "../")) rest
    else discoveryC4 basePath prev rest

theorem pullLinksGo_eq_discoveryC4 (basePath : String) :
    ∀ (prev : Option String) (links : List RawLink),
    pullLinksGo basePath prev links = discoveryC4 basePath prev links := by
  intro prev links
  induction links generalizing prev with
  | nil => rfl
  | cons l rest ih =>
    simp only [pullLinksGo, discoveryC4, keepLinkC4]
    by_cases h : strHasChar (strDropChars (strRemove l.target "../") basePath.length) '/'
        = true ∧ l.label ≠ "" ∧ some (strRemove l.target "../") ≠ prev
    · rw [if_pos h, if_pos h, ih]
    · rw [if_neg h, if_neg h, ih]

/-- A split on a single character never returns the empty list. -/
theorem splitChar_ne_nil (sep : Char) (s : List Char) : splitChar sep s ≠ [] := by
  cases s with
  | nil => simp [splitChar]
  | cons c rest =>
    simp only [splitChar]
    by_cases h : c = sep
    · simp [h]
    · rw [if_neg h]
      cases hs : splitChar sep rest <;> simp

/-!
Claim theorems.
-/

/-- C1: the claim says a record with an empty `paths` list is rejected
non-fatally during aggregation.  The code instead evaluates `paths[0]`
outside the `try` block, so such a record raises an uncaught `IndexError`
that propagates out of `save_data`: the crawl dies instead of skipping the
record.  This theorem evaluates the embedded code at the failing input. -/
theorem claim_C1_empty_paths_fatal :
    data_to_yaml "apidoc/v2/hosts/index.html" ⟨[], []⟩ = .fatal
    ∧ aggregate [("apidoc/v2/hosts/index.html", ⟨[], []⟩)] = .error ()
    ∧ save_data "satellite6" "6.3" [("apidoc/v2/hosts/index.html", ⟨[], []⟩)]
        ⟨[], []⟩ = .error () := by decide

/-- C3 counterexample: the claim says all whitespace is removed from a row's
text and rows come from the first table body only.  On a page whose first
table row contains a tab and that has a second table, the code keeps the tab
(only spaces are removed by `replace(" ","")`) and scrapes the second
table's rows as well (`//table/tbody/tr` selects every table). -/
theorem claim_C3_counterexample :
    (scrape_content ⟨[], [["a\tb\nc"], ["d\ne"]], []⟩).params = ["a\tb c", "d e"]
    ∧ paramsClaimC3 ⟨[], [["a\tb\nc"], ["d\ne"]], []⟩ = ["ab c"]
    ∧ (scrape_content ⟨[], [["a\tb\nc"], ["d\ne"]], []⟩).params
        ≠ paramsClaimC3 ⟨[], [["a\tb\nc"], ["d\ne"]], []⟩ := by decide

/-- C3 amended: every table row of every table body, in document order,
contributes one `params` entry; the entry removes the row's space characters
(not other whitespace), splits on newlines, drops empty fragments, keeps the
first two and joins them with a single space. -/
theorem claim_C3_row_params (p : Page) :
    (scrape_content p).params = paramsAmendedC3 p := rfl

/-- C4: link discovery keeps a hyperlink exactly under the claim's three
conditions with adjacent-duplicate suppression, and on identical normalized
paths `[A, B, A]` keeps all three while `[A, A, B]` keeps two. -/
theorem claim_C4_link_filter :
    (∀ (basePath : String) (p : Page),
      pull_links basePath p = discoveryC4 basePath none p.rawLinks)
    ∧ pullLinksGo "" none [⟨"a", "x/y"⟩, ⟨"b", "x/z"⟩, ⟨"a", "x/y"⟩]
        = [("a", "x/y"), ("b", "x/z"), ("a", "x/y")]
    ∧ pullLinksGo "" none [⟨"a", "x/y"⟩, ⟨"a", "x/y"⟩, ⟨"b", "x/z"⟩]
        = [("a", "x/y"), ("b", "x/z")] := by
  refine ⟨fun basePath p => ?_, by decide, by decide⟩
  exact pullLinksGo_eq_discoveryC4 basePath none p.rawLinks

/-- C5: a path with fewer than two `/`-separated segments is skipped
non-fatally; otherwise the entity is the second-to-last segment and the
action is the last segment with `.html` stripped and `index` normalized to
`list`; in particular `.../hosts/index.html` yields entity `hosts`, action
`list`. -/
theorem claim_C5_entity_action (idx : String) (r : ScrapedRecord)
    (pre : List String) (penult lastSeg : String) (p0 : String)
    (ps : List String) (idx1 : String) (r1 : ScrapedRecord)
    (hshort : (strSplit idx1 '/').length < 2)
    (hsplit : strSplit idx '/' = pre ++ [penult, lastSeg])
    (hpaths : r.paths = p0 :: ps) (hsep : strHasChar p0 '/' = true) :
    data_to_yaml idx1 r1 = .skip
    ∧ data_to_yaml idx r
        = .ok penult { action := normAction (strRemove lastSeg ".html")
                     , paths := r.paths, parameters := r.params }
    ∧ data_to_yaml "apidoc/v2/hosts/index.html" ⟨["GET /api/hosts"], ["id num"]⟩
        = .ok "hosts" { action := "list", paths := ["GET /api/hosts"]
                      , parameters := ["id num"] } := by
  refine ⟨?_, ?_, by decide⟩
  · cases hs : strSplit idx1 '/' with
    | nil =>
      exact absurd (List.map_eq_nil_iff.mp hs) (splitChar_ne_nil '/' idx1.data)
    | cons s rest =>
      cases rest with
      | nil =>
        unfold data_to_yaml
        rw [hs]
        rfl
      | cons s2 rest2 =>
        rw [hs] at hshort
        simp at hshort
        omega
  · unfold data_to_yaml
    rw [hsplit, List.reverse_append, hpaths]
    show (if strHasChar p0 '/' = true then
        YamlStep.ok penult { action := normAction (strRemove lastSeg ".html")
                           , paths := p0 :: ps, parameters := r.params }
      else YamlStep.skip) = _
    rw [if_pos hsep]

theorem claim_C5_witness :
    ((strSplit "nohost" '/').length < 2
    ∧ strSplit "apidoc/v2/hosts/create.html" '/' = ["apidoc", "v2"] ++ ["hosts", "create.html"]
    ∧ (⟨["POST /api/hosts"], ["name str"]⟩ : ScrapedRecord).paths = "POST /api/hosts" :: []
    ∧ strHasChar "POST /api/hosts" '/' = true)
    ∧ (data_to_yaml "nohost" ⟨[], []⟩ = .skip
    ∧ data_to_yaml "apidoc/v2/hosts/create.html" ⟨["POST /api/hosts"], ["name str"]⟩
        = .ok "hosts" { action := normAction (strRemove "create.html" ".html")
                      , paths := (⟨["POST /api/hosts"], ["name str"]⟩ : ScrapedRecord).paths
                      , parameters := (⟨["POST /api/hosts"], ["name str"]⟩ : ScrapedRecord).params }
    ∧ data_to_yaml "apidoc/v2/hosts/index.html" ⟨["GET /api/hosts"], ["id num"]⟩
        = .ok "hosts" { action := "list", paths := ["GET /api/hosts"]
                      , parameters := ["id num"] }) :=
  ⟨⟨by decide, by decide, by decide, by decide⟩,
    claim_C5_entity_action "apidoc/v2/hosts/create.html" ⟨["POST /api/hosts"], ["name str"]⟩
      ["apidoc", "v2"] "hosts" "create.html" "POST /api/hosts" [] "nohost" ⟨[], []⟩
      (by decide) (by decide) (by decide) (by decide)⟩

/-- C6 counterexample: the record at path `a//index.html` passes the
unmappable-path check (three segments) and the malformed-record check
(non-empty `paths` whose head contains `/`), so `_data_to_yaml` returns it
with entity name `""`; yet `save_data`'s `if ent` truthiness test drops it,
so it contributes no entry to any methods list. -/
theorem claim_C6_counterexample :
    data_to_yaml "a//index.html" ⟨["GET /x"], []⟩
      = .ok "" { action := "list", paths := ["GET /x"], parameters := [] }
    ∧ aggregate [("a//index.html", ⟨["GET /x"], []⟩)] = .ok [] := by decide

/-- C6 amended: each record that passes the malformed and unmappable-path
checks and whose derived entity name is non-empty becomes exactly one entry
appended to its entity's methods list; entries with the same action name are
not deduplicated and the methods order reflects arrival order into the map. -/
theorem claim_C6_methods_accumulation (data : PathMap) (yd : YamlData)
    (e : String) (hok : aggregate data = .ok yd) (he : e ≠ "") :
    dget e yd = if entriesFor data e = [] then none else some (entriesFor data e) := by
  have h := aggregateGo_dget data [] yd e he hok
  rw [h]
  show combineOpt none (entriesFor data e) = _
  rfl

theorem claim_C6_witness :
    aggregate [("apidoc/a/hosts/index.html", ⟨["GET /h"], ["p q"]⟩),
               ("apidoc/b/hosts/index.html", ⟨["GET /h2"], []⟩)]
      = .ok [("hosts", [{ action := "list", paths := ["GET /h"], parameters := ["p q"] },
                        { action := "list", paths := ["GET /h2"], parameters := [] }])]
    ∧ ("hosts" : String) ≠ ""
    ∧ dget "hosts"
        [("hosts", [{ action := "list", paths := ["GET /h"], parameters := ["p q"] },
                    { action := "list", paths := ["GET /h2"], parameters := [] }])]
      = if entriesFor [("apidoc/a/hosts/index.html", ⟨["GET /h"], ["p q"]⟩),
                       ("apidoc/b/hosts/index.html", ⟨["GET /h2"], []⟩)] "hosts" = []
        then none
        else some (entriesFor [("apidoc/a/hosts/index.html", ⟨["GET /h"], ["p q"]⟩),
                               ("apidoc/b/hosts/index.html", ⟨["GET /h2"], []⟩)] "hosts") :=
  ⟨by decide, by decide,
    claim_C6_methods_accumulation
      [("apidoc/a/hosts/index.html", ⟨["GET /h"], ["p q"]⟩),
       ("apidoc/b/hosts/index.html", ⟨["GET /h2"], []⟩)]
      [("hosts", [{ action := "list", paths := ["GET /h"], parameters := ["p q"] },
                  { action := "list", paths := ["GET /h2"], parameters := [] }])]
      "hosts" (by decide) (by decide)⟩

/-- C7: a base documentation path without the literal `apidoc/` makes the
crawl abort immediately with a warning and no side effects: no network
request is issued, the path → record map stays empty, and the filesystem is
untouched after the follow-up `save_data`. -/
theorem claim_C7_bad_base_path (cfg : Config) (seed : SeedResult)
    (f1 f2 : Nat → Link → FetchR) (fs : FS)
    (h : strContains cfg.base_path "apidoc/" = false) :
    exploreRequests cfg seed f1 f2 = []
    ∧ explore cfg seed f1 f2 = .ok []
    ∧ crawlFS cfg seed f1 f2 fs = (.ok [], fs) := by
  have hexp : explore cfg seed f1 f2 = .ok [] := by
    unfold explore
    rw [if_pos h]
  refine ⟨?_, hexp, ?_⟩
  · unfold exploreRequests
    rw [if_pos h]
  · unfold crawlFS
    rw [hexp]
    rfl

theorem claim_C7_witness :
    strContains "docs/" "apidoc/" = false
    ∧ (exploreRequests ⟨"n", "v", "http://h/", "docs/"⟩ ⟨true, ⟨[], [], []⟩⟩
        (fun _ _ => .disconnect) (fun _ _ => .disconnect) = []
    ∧ explore ⟨"n", "v", "http://h/", "docs/"⟩ ⟨true, ⟨[], [], []⟩⟩
        (fun _ _ => .disconnect) (fun _ _ => .disconnect) = .ok []
    ∧ crawlFS ⟨"n", "v", "http://h/", "docs/"⟩ ⟨true, ⟨[], [], []⟩⟩
        (fun _ _ => .disconnect) (fun _ _ => .disconnect)
        ⟨[("keep.txt", [])], ["keep"]⟩
      = (.ok [], ⟨[("keep.txt", [])], ["keep"]⟩)) :=
  ⟨by decide,
    claim_C7_bad_base_path ⟨"n", "v", "http://h/", "docs/"⟩ ⟨true, ⟨[], [], []⟩⟩
      (fun _ _ => .disconnect) (fun _ _ => .disconnect)
      ⟨[("keep.txt", [])], ["keep"]⟩ (by decide)⟩

/-- C8: an empty aggregated document makes persistence a no-op that returns
without error and leaves the filesystem unchanged; in particular a crawl
whose discovery yields zero links creates no file and no directory. -/
theorem claim_C8_empty_no_op (name version : String) (data : PathMap) (fs : FS)
    (cfg : Config) (seed : SeedResult) (f1 f2 : Nat → Link → FetchR) (fs2 : FS)
    (hagg : aggregate data = .ok [])
    (hlinks : pull_links (strRemove cfg.base_path ".html") seed.content = []) :
    save_data name version data fs = .ok fs
    ∧ crawlFS cfg seed f1 f2 fs2 = (.ok [], fs2) := by
  constructor
  · unfold save_data
    rw [hagg]
    rfl
  · unfold crawlFS explore
    by_cases h1 : strContains cfg.base_path "apidoc/" = false
    · rw [if_pos h1]
      rfl
    · rw [if_neg h1]
      by_cases h2 : seed.truthy = false
      · rw [if_pos h2]
        rfl
      · rw [if_neg h2, hlinks]
        rfl

theorem claim_C8_witness :
    aggregate [] = .ok []
    ∧ pull_links (strRemove "apidoc/" ".html") (⟨["GET /x"], [], []⟩ : Page) = []
    ∧ (save_data "n" "v" [] ⟨[("keep.txt", [])], ["keep"]⟩
        = .ok ⟨[("keep.txt", [])], ["keep"]⟩
    ∧ crawlFS ⟨"n", "v", "http://h/", "apidoc/"⟩ ⟨true, ⟨["GET /x"], [], []⟩⟩
        (fun _ _ => .disconnect) (fun _ _ => .disconnect)
        ⟨[("keep.txt", [])], ["keep"]⟩
      = (.ok [], ⟨[("keep.txt", [])], ["keep"]⟩)) :=
  ⟨by decide, by decide,
    claim_C8_empty_no_op "n" "v" [] ⟨[("keep.txt", [])], ["keep"]⟩
      ⟨"n", "v", "http://h/", "apidoc/"⟩ ⟨true, ⟨["GET /x"], [], []⟩⟩
      (fun _ _ => .disconnect) (fun _ _ => .disconnect)
      ⟨[("keep.txt", [])], ["keep"]⟩ (by decide) (by decide)⟩

/-- The filesystem after one non-empty save: the old file at the save path
(if any) replaced by the dump of the aggregated document, with the parent
directories ensured. -/
def savedFS (name version : String) (yd : YamlData) (fs : FS) : FS :=
  { files := fs.files.filter (fun pr => pr.1 ≠ savePath name version)
      ++ [(savePath name version, yd)]
  , dirs := addDir (addDir fs.dirs "APIs") ("APIs/" ++ name) }

/-- C9: for a non-empty aggregated document, saving writes exactly the
aggregated document at the deterministic path (deleting any prior file
there, creating parent directories as needed), and saving a second time to
the same name/version reproduces the same filesystem: persisting twice
equals persisting once, with no residual content from the prior write. -/
theorem claim_C9_idempotent_overwrite (name version : String) (data : PathMap)
    (yd : YamlData) (fs : FS) (hagg : aggregate data = .ok yd) (hne : yd ≠ []) :
    save_data name version data fs = .ok (savedFS name version yd fs)
    ∧ save_data name version data (savedFS name version yd fs)
        = .ok (savedFS name version yd fs)
    ∧ dget (savePath name version) (savedFS name version yd fs).files = some yd := by
  refine ⟨?_, ?_, ?_⟩
  · rw [save_data_of_aggregate_ok name version data yd fs hagg, if_neg hne]
    rfl
  · rw [save_data_of_aggregate_ok name version data yd _ hagg, if_neg hne]
    unfold savedFS
    have hfiles : ((fs.files.filter (fun pr => pr.1 ≠ savePath name version)
        ++ [(savePath name version, yd)]).filter (fun pr => pr.1 ≠ savePath name version))
        ++ [(savePath name version, yd)]
        = fs.files.filter (fun pr => pr.1 ≠ savePath name version)
          ++ [(savePath name version, yd)] := by
      rw [List.filter_append, filter_ne_key_filter]
      simp
    have hd1 : "APIs" ∈ addDir (addDir fs.dirs "APIs") ("APIs/" ++ name) :=
      mem_addDir_of_mem _ (self_mem_addDir fs.dirs "APIs")
    have hd2 : "APIs/" ++ name ∈ addDir (addDir fs.dirs "APIs") ("APIs/" ++ name) :=
      self_mem_addDir _ _
    rw [hfiles, addDir_of_mem hd1, addDir_of_mem hd2]
  · unfold savedFS
    show dget (savePath name version) _ = some yd
    rw [dget_append, dget_filter_ne_key, Option.none_or, dget_cons, if_pos rfl]

theorem claim_C9_witness :
    aggregate [("apidoc/v2/hosts/index.html", ⟨["GET /h"], ["p q"]⟩)]
      = .ok [("hosts", [{ action := "list", paths := ["GET /h"], parameters := ["p q"] }])]
    ∧ ([("hosts", [{ action := "list", paths := ["GET /h"], parameters := ["p q"] }])]
        : YamlData) ≠ []
    ∧ (save_data "n" "6.3" [("apidoc/v2/hosts/index.html", ⟨["GET /h"], ["p q"]⟩)]
        ⟨[("APIs/n/6.3.yaml", [("old", [])]), ("keep.txt", [])], ["keep"]⟩
      = .ok (savedFS "n" "6.3"
          [("hosts", [{ action := "list", paths := ["GET /h"], parameters := ["p q"] }])]
          ⟨[("APIs/n/6.3.yaml", [("old", [])]), ("keep.txt", [])], ["keep"]⟩)
    ∧ save_data "n" "6.3" [("apidoc/v2/hosts/index.html", ⟨["GET /h"], ["p q"]⟩)]
        (savedFS "n" "6.3"
          [("hosts", [{ action := "list", paths := ["GET /h"], parameters := ["p q"] }])]
          ⟨[("APIs/n/6.3.yaml", [("old", [])]), ("keep.txt", [])], ["keep"]⟩)
      = .ok (savedFS "n" "6.3"
          [("hosts", [{ action := "list", paths := ["GET /h"], parameters := ["p q"] }])]
          ⟨[("APIs/n/6.3.yaml", [("old", [])]), ("keep.txt", [])], ["keep"]⟩)
    ∧ dget (savePath "n" "6.3")
        (savedFS "n" "6.3"
          [("hosts", [{ action := "list", paths := ["GET /h"], parameters := ["p q"] }])]
          ⟨[("APIs/n/6.3.yaml", [("old", [])]), ("keep.txt", [])], ["keep"]⟩).files
      = some [("hosts", [{ action := "list", paths := ["GET /h"], parameters := ["p q"] }])]) :=
  ⟨by decide, by decide,
    claim_C9_idempotent_overwrite "n" "6.3"
      [("apidoc/v2/hosts/index.html", ⟨["GET /h"], ["p q"]⟩)]
      [("hosts", [{ action := "list", paths := ["GET /h"], parameters := ["p q"] }])]
      ⟨[("APIs/n/6.3.yaml", [("old", [])]), ("keep.txt", [])], ["keep"]⟩
      (by decide) (by decide)⟩

/-- C2: a lost connection during the first batch attempt restarts the whole
batch once from the full original link list after the fixed 10-unit delay;
the retried crawl's path → record map (and hence the aggregated document
and every save) is identical to a crawl with no disconnect; a disconnect on
both attempts propagates as a fatal error, and a fatally failed crawl
persists nothing. -/
theorem claim_C2_retry_once (f : Link → Page) (links : List Link) (k k2 : Nat)
    (hk : k < links.length) (hk2 : k2 < links.length) :
    visit_links (fetchOk f) (fetchOk f) links []
      = .ok { queue := links.map (fun l => (l, f l)), delays := [] }
    ∧ visit_links (fetchDiscAt f k) (fetchOk f) links []
      = .ok { queue := (links.map (fun l => (l, f l))).take k
                ++ links.map (fun l => (l, f l)), delays := [10] }
    ∧ link_params ((links.map (fun l => (l, f l))).take k
        ++ links.map (fun l => (l, f l))) []
      = link_params (links.map (fun l => (l, f l))) []
    ∧ (∀ (name version : String) (fs : FS),
        save_data name version
          (link_params ((links.map (fun l => (l, f l))).take k
            ++ links.map (fun l => (l, f l))) []) fs
        = save_data name version (link_params (links.map (fun l => (l, f l))) []) fs)
    ∧ visit_links (fetchDiscAt f k) (fetchDiscAt f k2) links [] = .error ()
    ∧ (∀ (cfg : Config) (seed : SeedResult) (g1 g2 : Nat → Link → FetchR) (fs : FS),
        explore cfg seed g1 g2 = .error () →
        crawlFS cfg seed g1 g2 fs = (.error (), fs)) := by
  refine ⟨visit_links_clean f links, visit_links_retry f k links hk,
    link_params_retry_eq f k links, ?_, visit_links_disc_twice f k k2 links hk hk2, ?_⟩
  · intro name version fs
    rw [link_params_retry_eq f k links]
  · intro cfg seed g1 g2 fs herr
    unfold crawlFS
    rw [herr]

theorem claim_C2_witness :
    (1 < ([(("a", "p/q") : Link), ("b", "p/r")]).length
    ∧ 0 < ([(("a", "p/q") : Link), ("b", "p/r")]).length)
    ∧ (visit_links (fetchOk (fun _ => ⟨["GET /x"], [], []⟩))
        (fetchOk (fun _ => ⟨["GET /x"], [], []⟩)) [("a", "p/q"), ("b", "p/r")] []
      = .ok { queue := ([("a", "p/q"), ("b", "p/r")] : List Link).map
                (fun l => (l, (⟨["GET /x"], [], []⟩ : Page))), delays := [] }
    ∧ visit_links (fetchDiscAt (fun _ => ⟨["GET /x"], [], []⟩) 1)
        (fetchOk (fun _ => ⟨["GET /x"], [], []⟩)) [("a", "p/q"), ("b", "p/r")] []
      = .ok { queue := (([("a", "p/q"), ("b", "p/r")] : List Link).map
                  (fun l => (l, (⟨["GET /x"], [], []⟩ : Page)))).take 1
                ++ ([("a", "p/q"), ("b", "p/r")] : List Link).map
                  (fun l => (l, (⟨["GET /x"], [], []⟩ : Page))), delays := [10] }
    ∧ link_params ((([("a", "p/q"), ("b", "p/r")] : List Link).map
          (fun l => (l, (⟨["GET /x"], [], []⟩ : Page)))).take 1
        ++ ([("a", "p/q"), ("b", "p/r")] : List Link).map
          (fun l => (l, (⟨["GET /x"], [], []⟩ : Page)))) []
      = link_params (([("a", "p/q"), ("b", "p/r")] : List Link).map
          (fun l => (l, (⟨["GET /x"], [], []⟩ : Page)))) []
    ∧ (∀ (name version : String) (fs : FS),
        save_data name version
          (link_params ((([("a", "p/q"), ("b", "p/r")] : List Link).map
              (fun l => (l, (⟨["GET /x"], [], []⟩ : Page)))).take 1
            ++ ([("a", "p/q"), ("b", "p/r")] : List Link).map
              (fun l => (l, (⟨["GET /x"], [], []⟩ : Page)))) []) fs
        = save_data name version
            (link_params (([("a", "p/q"), ("b", "p/r")] : List Link).map
              (fun l => (l, (⟨["GET /x"], [], []⟩ : Page)))) []) fs)
    ∧ visit_links (fetchDiscAt (fun _ => ⟨["GET /x"], [], []⟩) 1)
        (fetchDiscAt (fun _ => ⟨["GET /x"], [], []⟩) 0) [("a", "p/q"), ("b", "p/r")] []
      = .error ()
    ∧ (∀ (cfg : Config) (seed : SeedResult) (g1 g2 : Nat → Link → FetchR) (fs : FS),
        explore cfg seed g1 g2 = .error () →
        crawlFS cfg seed g1 g2 fs = (.error (), fs))) :=
  ⟨⟨by decide, by decide⟩,
    claim_C2_retry_once (fun _ => ⟨["GET /x"], [], []⟩)
      [("a", "p/q"), ("b", "p/r")] 1 0 (by decide) (by decide)⟩

/-- C10: the fetch loop awaits each link's fetch to completion and enqueues
its `(link, content)` pair before issuing the next fetch: for every link
list, the queue receives exactly one pair per link and its arrival order is
deterministic and equal to the input link order. -/
theorem claim_C10_sequential_queue (f : Link → Page) (i : Nat) (links : List Link)
    (queue : List QItem) :
    async_loop (fetchOk f) i links queue
      = (queue ++ links.map (fun l => (l, f l)), true)
    ∧ (async_loop (fetchOk f) i links queue).1.length
      = queue.length + links.length := by
  refine ⟨async_loop_fetchOk f i links queue, ?_⟩
  rw [async_loop_fetchOk]
  simp
